import Mathlib

/-!
Verification of the book search-and-download workflow in `main.py`.

The Python source is shallowly embedded: pure functions become Lean
functions over `String`/`List Char`, `ℤ` and `ℚ`; the external
collaborators (the catalog search client, the download-link resolver,
the HTTP layer and the interactive user) become explicit oracles passed
as arguments; Python `float` arithmetic is modelled exactly over `ℚ`
(the score terms involved — integer tenths and small sums — are
order-isomorphic to their IEEE counterparts at these magnitudes).  The
thread pool of the download phase is serialised in queue order: every
claim below is about membership and multiplicity in the outcome lists,
which are independent of the completion order of the pool's workers.
String scanning is done over `List Char` by structural recursion so that
every definition evaluates inside the kernel.
-/

namespace BooksDl

/-! ### Models of Python string and number primitives -/

/-- Value of a list of decimal digit characters (most significant first). -/
def digitsVal : List Char → Nat
  | [] => 0
  | c :: cs => (c.toNat - '0'.toNat) * 10 ^ cs.length + digitsVal cs

/-- All characters are decimal digits. -/
def allDigits (cs : List Char) : Bool :=
  cs.all (fun c => c.isDigit)

/-- Model of Python `str.lower()` (ASCII; the program's unit suffixes and
commands are ASCII). -/
def lowerCl (cs : List Char) : List Char :=
  cs.map Char.toLower

/-- Model of Python `str.strip()`: drop whitespace from both ends. -/
def trimCl (cs : List Char) : List Char :=
  ((cs.dropWhile Char.isWhitespace).reverse.dropWhile Char.isWhitespace).reverse

/-- Model of Python `s.replace(pat, "")` for a two-character pattern
(the only pattern shapes the program uses: `"kb"`, `"mb"`, `"gb"`):
delete every non-overlapping occurrence, scanning left to right. -/
def replace2 (a b : Char) : List Char → List Char
  | [] => []
  | [c] => [c]
  | c :: d :: cs =>
    if c == a && d == b then replace2 a b cs
    else c :: replace2 a b (d :: cs)

/-- Model of Python `s.split(',')`: `""` splits to `[""]`. -/
def splitComma : List Char → List (List Char)
  | [] => [[]]
  | c :: cs =>
    if c == ',' then [] :: splitComma cs
    else
      match splitComma cs with
      | t :: ts => (c :: t) :: ts
      | [] => [[c]]

/-- `isPre needle hay`: `needle` is a prefix of `hay`. -/
def isPre : List Char → List Char → Bool
  | [], _ => true
  | _ :: _, [] => false
  | a :: as, b :: bs => a == b && isPre as bs

/-- `substrIn needle hay`: `needle` occurs contiguously in `hay` —
the model of Python `needle in hay` on strings. -/
def substrIn (needle : List Char) : List Char → Bool
  | [] => isPre needle []
  | b :: bs => isPre needle (b :: bs) || substrIn needle bs

/-- Model of Python `int(s)` on strings: surrounding whitespace, an
optional sign, then a non-empty run of digits.  `none` models a raised
`ValueError`. -/
def pyIntCl? (s : List Char) : Option Int :=
  match trimCl s with
  | [] => none
  | c :: cs =>
    if c == '-' then
      if cs ≠ [] ∧ allDigits cs then some (-(digitsVal cs : Int)) else none
    else if c == '+' then
      if cs ≠ [] ∧ allDigits cs then some ((digitsVal cs : Int)) else none
    else
      if allDigits (c :: cs) then some ((digitsVal (c :: cs) : Int)) else none

/-- Mantissa/decimal-exponent form of a parsed Python float literal:
`(m, e)` denotes the value `m / 10 ^ e`. -/
def floatParseCore (cs : List Char) : Option (Int × Nat) :=
  match cs.span (fun c => c.isDigit) with
  | (ip, []) => if ip ≠ [] then some ((digitsVal ip : Int), 0) else none
  | (ip, '.' :: fp) =>
      if allDigits fp ∧ (ip ≠ [] ∨ fp ≠ []) then
        some (((digitsVal ip : Int)) * 10 ^ fp.length + (digitsVal fp : Int), fp.length)
      else none
  | _ => none

/-- Model of Python `float(s)` on decimal literals: whitespace, optional
sign, digits with an optional fractional part, at least one digit in
total (exponent and `inf`/`nan` forms do not occur among this program's
inputs).  `none` models a raised `ValueError`. -/
def pyFloatParse? (s : List Char) : Option (Int × Nat) :=
  match trimCl s with
  | [] => none
  | c :: cs =>
    if c == '-' then (floatParseCore cs).map (fun p => (-p.1, p.2))
    else if c == '+' then floatParseCore cs
    else floatParseCore (c :: cs)

/-- Rational value of a parsed float. -/
def pyFloatVal (p : Int × Nat) : ℚ :=
  (p.1 : ℚ) / 10 ^ p.2

/-! ### Data model -/

/-- One parsed line of `books.txt` (`parse_books_file` output dict). -/
structure BookRequest where
  author : String
  title : String
  original_line : String
deriving DecidableEq, Repr

instance : Inhabited BookRequest := ⟨⟨"", "", ""⟩⟩

/-- One catalog search result.  The Python side is a dict with these
recognized keys; `none` models an absent key (each call site supplies
its own `.get` default). -/
structure Candidate where
  Title : Option String := none
  Author : Option String := none
  Year : Option String := none
  Extension : Option String := none
  Size : Option String := none
  Pages : Option String := none
  Publisher : Option String := none
  Descr : Option String := none
deriving DecidableEq, Repr

instance : Inhabited Candidate := ⟨{}⟩

/-! ### `parse_file_size` (main.py lines 82–97) -/

/-- The branch taken by `parse_file_size` together with the parsed
number: `if not size_str` is the empty test, the unit tests are Python
`in` (substring containment) on the lowered string, `replace` deletes
every occurrence of the unit, and `float` is applied to the stripped
remainder. -/
inductive SizeParse where
  | empty
  | kb (p : Option (Int × Nat))
  | mb (p : Option (Int × Nat))
  | gb (p : Option (Int × Nat))
  | raw (p : Option (Int × Nat))
deriving DecidableEq, Repr

/-- Branch selection and number parsing of `parse_file_size`. -/
def parseSizeStr (size_str : String) : SizeParse :=
  if size_str = "" then .empty
  else
    let s := lowerCl size_str.toList
    if substrIn ['k', 'b'] s then .kb (pyFloatParse? (trimCl (replace2 'k' 'b' s)))
    else if substrIn ['m', 'b'] s then .mb (pyFloatParse? (trimCl (replace2 'm' 'b' s)))
    else if substrIn ['g', 'b'] s then .gb (pyFloatParse? (trimCl (replace2 'g' 'b' s)))
    else .raw (pyFloatParse? s)

/-- Embedding of `parse_file_size`: `kb` divides by 1024, `mb` is taken
as-is, `gb` multiplies by 1024, no unit divides by 1024², and the bare
`except` arm (a failed `float`) yields 0, as does the empty string. -/
def parse_file_size (size_str : String) : ℚ :=
  match parseSizeStr size_str with
  | .empty => 0
  | .kb (some p) => pyFloatVal p / 1024
  | .mb (some p) => pyFloatVal p
  | .gb (some p) => pyFloatVal p * 1024
  | .raw (some p) => pyFloatVal p / (1024 * 1024)
  | .kb none | .mb none | .gb none | .raw none => 0

/-! ### Scoring and ranking (`format_results`, main.py lines 50–80) -/

/-- Year field as passed to `int`: `result.get("Year", 0)` defaults to
the integer 0, so an absent field parses to `0`. -/
def yearParsed (result : Candidate) : Option Int :=
  match result.Year with
  | none => some 0
  | some y => pyIntCl? y.toList

/-- Score of one result inside `format_results`: starts at 0, +10 for a
preferred pdf (the lowered Extension field, defaulted to the empty string, equals "pdf"),
+(year−2000)·0.1 when the year parses above 2000 (the `except` arm
contributes nothing), +5 when `result.get("Size", "0")` converts to
strictly between 1 and 100 MB. -/
def score (result : Candidate) (prefer_pdf prefer_newer : Bool) : ℚ :=
  let s0 : ℚ := 0
  let s1 := if prefer_pdf && (lowerCl (result.Extension.getD "").toList == "pdf".toList)
            then s0 + 10 else s0
  let s2 := match yearParsed result with
    | some year => if year > 2000 then s1 + ((year : ℚ) - 2000) * (1 / 10) else s1
    | none => s1
  let size_mb := parse_file_size (result.Size.getD "0")
  let s3 := if 1 < size_mb ∧ size_mb < 100 then s2 + 5 else s2
  s3

/-- Stable descending insertion by key: `x` passes over elements with a
strictly greater key and lands before the first element whose key is not
greater, so among equal keys earlier-inserted elements stay first. -/
def insertDesc {α : Type} (key : α → ℚ) (x : α) : List α → List α
  | [] => [x]
  | y :: ys => if key x < key y then y :: insertDesc key x ys else x :: y :: ys

/-- Stable sort by descending key — the embedding of Python's stable
`list.sort(key=..., reverse=True)` (all stable sorts under one total
key preorder agree extensionally). -/
def sortDesc {α : Type} (key : α → ℚ) : List α → List α
  | [] => []
  | x :: xs => insertDesc key x (sortDesc key xs)

/-- Embedding of `format_results`: early return on the empty list, score
each result into a `(score, result)` pair, stable-sort by descending
score, strip the scores. -/
def format_results (results : List Candidate)
    (prefer_pdf : Bool := true) (prefer_newer : Bool := true) : List Candidate :=
  if results = [] then []
  else
    let scored_results := results.map (fun r => (score r prefer_pdf prefer_newer, r))
    let sorted := sortDesc Prod.fst scored_results
    sorted.map Prod.snd

/-! ### Interactive selection (main.py lines 226–264) -/

/-- One event at the `input("> ")` prompt: a typed line, or Ctrl-C
(`KeyboardInterrupt`). -/
inductive UserLine where
  | text (s : String)
  | interrupt
deriving DecidableEq, Repr

/-- Outcome of the selection loop for one book: a list of chosen
0-based offsets, or the run being cancelled (`KeyboardInterrupt`, whose
handler is `return` from `main`). -/
inductive SelOut where
  | chosen (idxs : List Nat)
  | cancelled
deriving DecidableEq, Repr

/-- The processed prompt line: `input("> ").strip().lower()`. -/
def procChoice (s : String) : List Char :=
  lowerCl (trimCl s.toList)

/-- Validation of the comma-separated tokens against a result list of
length `n` (the inner `for num_str in choice.split(',')`): a token
parsing to `num` with `1 <= num <= n` contributes the offset `num - 1`
to `selected_indices`; any other token contributes its stripped text to
`invalid_selections`. -/
def validateTokens (n : Nat) : List (List Char) → List Nat × List String
  | [] => ([], [])
  | t :: ts =>
    let t' := trimCl t
    let (sel, inv) := validateTokens n ts
    match pyIntCl? t' with
    | some num =>
        if 1 ≤ num ∧ num ≤ (n : Int) then ((num.toNat - 1) :: sel, inv)
        else (sel, String.mk t' :: inv)
    | none => (sel, String.mk t' :: inv)

/-- Tokenisation plus validation of one processed input line. -/
def parseSelection (s : String) (n : Nat) : List Nat × List String :=
  validateTokens n (splitComma (procChoice s))

/-- Embedding of the `while True` selection loop: `"skip"` or the empty
line selects nothing; a line with any invalid token queues nothing and
re-prompts; a fully valid line queues its offsets.  An interrupt — and,
degenerately, running out of modelled input — cancels the run. -/
def selectLoop : List UserLine → Nat → SelOut
  | [], _ => SelOut.cancelled
  | UserLine.interrupt :: _, _ => SelOut.cancelled
  | UserLine.text s :: rest, n =>
    let choice := procChoice s
    if choice = "skip".toList ∨ choice = [] then SelOut.chosen []
    else
      let (sel, inv) := parseSelection s n
      if inv ≠ [] then selectLoop rest n
      else SelOut.chosen sel

/-! ### Download path construction and mirrors
(`download_single_book`, main.py lines 156–184; `get_download_links`,
lines 128–135) -/

/-- The regex substitution replacing each of the nine reserved filename
characters with an underscore acts per character. -/
def sanitizeChar (c : Char) : Char :=
  if c ∈ ['<', '>', ':', '"', '/', '\\', '|', '?', '*'] then '_' else c

/-- Filename sanitization of the original line (`safe_title`). -/
def sanitize (s : String) : String :=
  String.mk (s.toList.map sanitizeChar)

/-- One entry of the `downloads` queue (the two-key dict holding the book and the chosen result). -/
structure DownloadItem where
  book : BookRequest
  result : Candidate
deriving DecidableEq, Repr

/-- `filename = f"{safe_title}.{extension}"` with
with the Extension field defaulted to "pdf". -/
def destFilename (item : DownloadItem) : String :=
  sanitize item.book.original_line ++ "." ++ item.result.Extension.getD "pdf"

/-- `filepath = os.path.join(download_dir, filename)` for a relative
plain directory name. -/
def destPath (download_dir : String) (item : DownloadItem) : String :=
  download_dir ++ "/" ++ destFilename item

/-- `get_download_links`: the resolver's mapping, with a raised
exception (`none`) caught and turned into the empty mapping.  A mapping
is a list of (mirror name, URL) pairs in iteration order; a `none` or
`""` URL is Python-falsy. -/
def get_download_links (resolve : Candidate → Option (List (String × Option String)))
    (result : Candidate) : List (String × Option String) :=
  (resolve result).getD []

/-- The mirror loop `for link_name, url in download_links.items()`:
falsy URLs are skipped, a successful `download_file` returns at once,
a failed one sleeps and moves on.  Returns the success flag together
with the list of URLs actually attempted, in order. -/
def tryMirrors (dl : String → Bool) : List (String × Option String) → Bool × List String
  | [] => (false, [])
  | (_, u) :: rest =>
    match u with
    | none => tryMirrors dl rest
    | some url =>
      if url = "" then tryMirrors dl rest
      else if dl url then (true, [url])
      else
        let r := tryMirrors dl rest
        (r.1, url :: r.2)

/-- Embedding of `download_single_book`.  `dl url filepath` is the
success flag of `download_file(url, filepath)`.  An empty mapping (which
a resolver exception has already been collapsed to) fails immediately
with the no-links message; otherwise the mirror loop runs and exhaustion
fails with the aggregate message. -/
def download_single_book (resolve : Candidate → Option (List (String × Option String)))
    (dl : String → String → Bool) (download_item : DownloadItem)
    (download_dir : String) : Bool × String × String :=
  let book := download_item.book
  let result := download_item.result
  let book_title := result.Title.getD "Unknown Title"
  let download_links := get_download_links resolve result
  if download_links = [] then
    (false, book.original_line, "No download links found for " ++ book_title)
  else
    let filepath := destPath download_dir download_item
    let r := tryMirrors (fun url => dl url filepath) download_links
    if r.1 then
      (true, book.original_line, "Downloaded: " ++ destFilename download_item)
    else
      (false, book.original_line, "Failed to download from all available links")

/-- The URLs `download_single_book` attempts (the calls to
`download_file`), in order. -/
def attemptedUrls (resolve : Candidate → Option (List (String × Option String)))
    (dl : String → String → Bool) (download_item : DownloadItem)
    (download_dir : String) : List String :=
  let download_links := get_download_links resolve download_item.result
  if download_links = [] then []
  else (tryMirrors (fun url => dl url (destPath download_dir download_item)) download_links).2

/-- The URLs of a mapping that survive the `if url:` truthiness test,
in mapping order. -/
def truthyUrls (links : List (String × Option String)) : List String :=
  links.filterMap (fun p => match p.2 with
    | none => none
    | some url => if url = "" then none else some url)

/-! ### `download_file` (main.py lines 137–154) -/

/-- Abstract HTTP response for one `requests.get(url, stream=True)`:
either the request/`raise_for_status` raises before any body is read,
or the body yields the listed chunks and then either ends cleanly or
raises mid-stream. -/
inductive HttpOutcome where
  | failStart
  | stream (chunks : List (List Nat)) (failMid : Bool)
deriving DecidableEq, Repr

/-- Bytes on disk after the write loop `for chunk in iter_content(...)`:
each truthy (non-empty) chunk is appended in turn. -/
def writeChunks : List (List Nat) → List Nat
  | [] => []
  | c :: cs => if c ≠ [] then c ++ writeChunks cs else writeChunks cs

/-- Embedding of `download_file`: the first component is the returned
`(success, message)` pair, the second the file the function leaves at
`filename` — `none` when `open` was never reached (the request itself
raised), `some bytes` otherwise.  There is no temporary file and no
delete: a mid-stream failure leaves the chunks already written. -/
def download_file (resp : HttpOutcome) (filename : String) :
    (Bool × String) × Option (List Nat) :=
  match resp with
  | .failStart => ((false, "Error downloading " ++ filename), none)
  | .stream chunks failMid =>
    if failMid then
      ((false, "Error downloading " ++ filename), some (writeChunks chunks))
    else
      ((true, filename), some (writeChunks chunks))

/-! ### The orchestrator (`main`, main.py lines 186–342) -/

/-- The oracles one run of `main` consults: the wrapped catalog search
(`search_book`, whose internal exception handling already yields `[]` on
collaborator failure), the user's typed lines for the i-th request's
selection loop, the download-link resolver (`none` = raised), and the
per-URL/per-path success of `download_file`. -/
structure Env where
  search_book : String → List Candidate
  inputs : Nat → List UserLine
  resolve : Candidate → Option (List (String × Option String))
  dl : String → String → Bool

/-- The fallback queries of main.py lines 205–209: author+title joined,
title alone, author alone. -/
def search_queries (book : BookRequest) : List String :=
  [book.author ++ " " ++ book.title, book.title, book.author]

/-- The query loop of main.py lines 211–216: issue queries in order,
stop at the first non-empty result.  Returns the queries issued and the
final `results` value (`[]` when every query came back empty). -/
def searchLoop (sb : String → List Candidate) : List String → List String × List Candidate
  | [] => ([], [])
  | q :: qs =>
    let results := sb q
    if results = [] then
      let r := searchLoop sb qs
      (q :: r.1, r.2)
    else ([q], results)

/-- The result sequence the orchestrator ends up with for one request. -/
def searchWithFallback (sb : String → List Candidate) (book : BookRequest) :
    List Candidate :=
  (searchLoop sb (search_queries book)).2

/-- Accumulated state of the selection phase: the download queue, the
`not_found` lines, and (instrumentation) the requests that were actually
displayed and offered to the selector. -/
structure Phase1Out where
  downloads : List DownloadItem
  not_found : List String
  offered : List BookRequest
deriving DecidableEq, Repr

/-- The per-book loop of main.py lines 202–267, from the book at
position `i` on: search with fallback; an empty result records the line
in `not_found`; otherwise the ranked results go to the selection loop,
whose chosen offsets append (book, result) items to the
queue.  A cancelled selection is the `KeyboardInterrupt` handler:
`main` returns at once (`none`). -/
def phase1 (env : Env) : List BookRequest → Nat → Option Phase1Out
  | [], _ => some ⟨[], [], []⟩
  | book :: rest, i =>
    if searchWithFallback env.search_book book = [] then
      (phase1 env rest (i + 1)).map
        (fun o => ⟨o.downloads, book.original_line :: o.not_found, o.offered⟩)
    else
      match selectLoop (env.inputs i)
          (format_results (searchWithFallback env.search_book book)).length with
      | SelOut.cancelled => none
      | SelOut.chosen idxs =>
        (phase1 env rest (i + 1)).map
          (fun o =>
            ⟨idxs.map (fun idx =>
                ⟨book,
                 (format_results (searchWithFallback env.search_book book)).getD
                   idx default⟩)
               ++ o.downloads,
             o.not_found, book :: o.offered⟩)

/-- The download phase (main.py lines 283–299): every queued item runs
`download_single_book`; successes and failures are split into
`successful_downloads` and `failed_downloads`.  The 3-worker pool is
serialised in queue order — the claims below only concern membership
and multiplicity, which completion order does not change. -/
def phase2 (env : Env) (download_dir : String) :
    List DownloadItem → List String × List String
  | [] => ([], [])
  | d :: rest =>
    let r := download_single_book env.resolve env.dl d download_dir
    let acc := phase2 env download_dir rest
    if r.1 then (r.2.1 :: acc.1, acc.2) else (acc.1, r.2.1 :: acc.2)

/-- Observable end state of one run of `main`: either the interrupt
handler returned early (no download phase, no summary), or the run
finished with the three outcome lists (`not_downloaded` is
`failed_downloads` appended to the initially empty list). -/
inductive RunResult where
  | aborted
  | finished (successful_downloads not_found not_downloaded : List String)
deriving DecidableEq, Repr

/-- One whole run of `main` over the parsed requests. -/
def runMain (env : Env) (books : List BookRequest) : RunResult :=
  match phase1 env books 0 with
  | none => RunResult.aborted
  | some o =>
    let r := phase2 env "downloaded_books" o.downloads
    RunResult.finished r.1 o.not_found r.2

/-- Number of candidates the selection loop for the book at position
`i` ends up queueing (0 when it is cancelled — that run never reaches
the download phase anyway). -/
def selLen (env : Env) (book : BookRequest) (i : Nat) : Nat :=
  match selectLoop (env.inputs i)
      (format_results (searchWithFallback env.search_book book)).length with
  | SelOut.cancelled => 0
  | SelOut.chosen idxs => idxs.length

/-! ## Helper lemmas -/

theorem toLower_of_isDigit {c : Char} (h : c.isDigit = true) : c.toLower = c := by
  have hc : c.toNat ≤ 57 := by
    simp only [Char.isDigit, Bool.and_eq_true, decide_eq_true_eq] at h
    exact UInt32.toNat_le_of_le (by decide) h.2
  unfold Char.toLower
  have : ¬(c.toNat ≥ 65 ∧ c.toNat ≤ 90) := by omega
  simp [this]

theorem lowerCl_of_digits {cs : List Char} (h : ∀ c ∈ cs, c.isDigit = true) :
    lowerCl cs = cs := by
  unfold lowerCl
  induction cs with
  | nil => rfl
  | cons c cs ih =>
    simp only [List.map_cons]
    rw [toLower_of_isDigit (h c (by simp)), ih (fun x hx => h x (by simp [hx]))]

theorem not_isDigit_of_isWhitespace {c : Char} (h : c.isWhitespace = true) :
    c.isDigit = false := by
  have hcases : c = ' ' ∨ c = '\t' ∨ c = '\r' ∨ c = '\n' := by
    simpa [Char.isWhitespace, Bool.or_eq_true, decide_eq_true_eq, or_assoc] using h
  rcases hcases with h1 | h1 | h1 | h1 <;> subst h1 <;> decide

theorem dropWhile_eq_self_of_head {p : Char → Bool} {cs : List Char}
    (h : ∀ c ∈ cs.head?, p c = false) : cs.dropWhile p = cs := by
  cases cs with
  | nil => rfl
  | cons c cs =>
    have := h c (by simp)
    simp [List.dropWhile, this]

theorem trimCl_of_digits {cs : List Char} (h : ∀ c ∈ cs, c.isDigit = true) :
    trimCl cs = cs := by
  unfold trimCl
  have hws : ∀ c ∈ cs, c.isWhitespace = false := by
    intro c hc
    cases hwsc : c.isWhitespace
    · rfl
    · have hd := not_isDigit_of_isWhitespace hwsc
      rw [h c hc] at hd
      exact Bool.noConfusion hd
  rw [dropWhile_eq_self_of_head (fun c hc => hws c (List.mem_of_mem_head? hc)),
      dropWhile_eq_self_of_head (fun c hc => by
        have hm : c ∈ cs.reverse := List.mem_of_mem_head? hc
        exact hws c (by simpa using hm)),
      List.reverse_reverse]

theorem substrIn_mem {a : Char} {pat cs : List Char}
    (h : substrIn (a :: pat) cs = true) : a ∈ cs := by
  induction cs with
  | nil => simp [substrIn, isPre] at h
  | cons b bs ih =>
    rw [substrIn] at h
    simp only [Bool.or_eq_true] at h
    rcases h with h1 | h1
    · rw [isPre] at h1
      simp only [Bool.and_eq_true, beq_iff_eq] at h1
      simp [h1.1]
    · exact List.mem_cons_of_mem _ (ih h1)

theorem span_all_of_digits {cs : List Char} (h : ∀ c ∈ cs, c.isDigit = true) :
    cs.span (fun c => c.isDigit) = (cs, []) := by
  rw [List.span_eq_take_drop]
  rw [List.takeWhile_eq_self_iff.2 h, List.dropWhile_eq_nil_iff.2 h]

theorem floatParseCore_of_digits {cs : List Char} (h0 : cs ≠ [])
    (h : ∀ c ∈ cs, c.isDigit = true) :
    floatParseCore cs = some ((digitsVal cs : Int), 0) := by
  unfold floatParseCore
  rw [span_all_of_digits h]
  simp [h0]

theorem pyFloatParse?_of_digits {cs : List Char} (h0 : cs ≠ [])
    (h : ∀ c ∈ cs, c.isDigit = true) :
    pyFloatParse? cs = some ((digitsVal cs : Int), 0) := by
  unfold pyFloatParse?
  rw [trimCl_of_digits h]
  cases cs with
  | nil => exact absurd rfl h0
  | cons c cs =>
    have hc : c.isDigit = true := h c (by simp)
    have hminus : (c == '-') = false := by
      by_contra hcon
      have : c = '-' := by simpa using Bool.of_not_eq_false hcon
      rw [this] at hc; simp [Char.isDigit] at hc
    have hplus : (c == '+') = false := by
      by_contra hcon
      have : c = '+' := by simpa using Bool.of_not_eq_false hcon
      rw [this] at hc; simp [Char.isDigit] at hc
    simp only [hminus, hplus, Bool.false_eq_true, if_false]
    exact floatParseCore_of_digits (by simp) h

theorem substrIn_false_of_digits {b : Char} {pat cs : List Char}
    (h : ∀ c ∈ cs, c.isDigit = true) (hb : b.isDigit = false) :
    substrIn (b :: pat) cs = false := by
  by_contra hcon
  have : b ∈ cs := substrIn_mem (Bool.of_not_eq_false hcon)
  rw [h b this] at hb
  exact Bool.noConfusion hb

/-! ## Claim C3: `parse_file_size` unit conversion -/

/-- C3: `parse_file_size` converts a size string to megabytes:
`"5MB"` yields 5, `"2048KB"` yields exactly 2 (a `kb` suffix divides by
1024), `"1GB"` yields 1024 (`gb` multiplies by 1024), a unitless digit
string is treated as a byte count and divided by 1024², and the empty
string or an unparseable string such as `"garbage"` yields 0 (the
function never raises — it is total). -/
theorem parse_file_size_spec :
    parse_file_size "5MB" = 5 ∧
    parse_file_size "2048KB" = 2 ∧
    parse_file_size "1GB" = 1024 ∧
    parse_file_size "" = 0 ∧
    parse_file_size "garbage" = 0 ∧
    ∀ s : String, s.toList ≠ [] → (∀ c ∈ s.toList, c.isDigit = true) →
      parse_file_size s = (digitsVal s.toList : ℚ) / (1024 * 1024) := by
  refine ⟨?_, ?_, ?_, ?_, ?_, ?_⟩
  · have h : parseSizeStr "5MB" = .mb (some (5, 0)) := by decide
    rw [parse_file_size, h]; norm_num [pyFloatVal]
  · have h : parseSizeStr "2048KB" = .kb (some (2048, 0)) := by decide
    rw [parse_file_size, h]; norm_num [pyFloatVal]
  · have h : parseSizeStr "1GB" = .gb (some (1, 0)) := by decide
    rw [parse_file_size, h]; norm_num [pyFloatVal]
  · have h : parseSizeStr "" = .empty := by decide
    rw [parse_file_size, h]
  · have h : parseSizeStr "garbage" = .raw none := by decide
    rw [parse_file_size, h]
  · intro s h0 hdig
    have hne : ¬(s = "") := by
      intro hcon; rw [hcon] at h0; exact h0 rfl
    have hlower : lowerCl s.toList = s.toList := lowerCl_of_digits hdig
    have hk : substrIn ['k', 'b'] (lowerCl s.toList) = false := by
      rw [hlower]; exact substrIn_false_of_digits hdig (by decide)
    have hm : substrIn ['m', 'b'] (lowerCl s.toList) = false := by
      rw [hlower]; exact substrIn_false_of_digits hdig (by decide)
    have hg : substrIn ['g', 'b'] (lowerCl s.toList) = false := by
      rw [hlower]; exact substrIn_false_of_digits hdig (by decide)
    have hparse : parseSizeStr s = .raw (some ((digitsVal s.toList : Int), 0)) := by
      unfold parseSizeStr
      rw [if_neg hne]
      simp only [hk, hm, hg, Bool.false_eq_true, if_false]
      rw [hlower, pyFloatParse?_of_digits h0 hdig]
    rw [parse_file_size, hparse]
    simp only [pyFloatVal]
    push_cast
    norm_num

/-- Witness for the general (hypothesis-carrying) clause of
`parse_file_size_spec`, at the concrete unitless string `"512000"`. -/
theorem parse_file_size_spec_witness :
    "512000".toList ≠ [] ∧
    parse_file_size "512000" = (digitsVal "512000".toList : ℚ) / (1024 * 1024) :=
  ⟨by decide, parse_file_size_spec.2.2.2.2.2 "512000" (by decide) (by decide)⟩

/-! ## Claim C2: the scoring heuristic -/

/-- C2: the score of a `CandidateRecord` starts at 0 and equals the sum
of +10 iff `prefer_pdf` is set and the `Extension` field
case-insensitively equals `"pdf"`, plus (year − 2000)·0.1 iff the
`Year` field parses as an integer strictly above 2000 (0 otherwise,
including parse failure — an absent `Year` defaults to the integer 0),
plus +5 iff the `Size` field converts to strictly between 1 and 100 MB;
and the `prefer_newer` flag has no effect on the score. -/
theorem score_spec (result : Candidate) (prefer_pdf prefer_newer prefer_newer' : Bool) :
    score result prefer_pdf prefer_newer =
      (if prefer_pdf = true ∧ lowerCl (result.Extension.getD "").toList = "pdf".toList
       then (10 : ℚ) else 0)
      + (match yearParsed result with
         | some year => if 2000 < year then ((year : ℚ) - 2000) * (1 / 10) else 0
         | none => 0)
      + (if 1 < parse_file_size (result.Size.getD "0") ∧
            parse_file_size (result.Size.getD "0") < 100
         then (5 : ℚ) else 0) ∧
    score result prefer_pdf prefer_newer = score result prefer_pdf prefer_newer' := by
  constructor
  · have hif : (if prefer_pdf = true ∧
                   lowerCl (result.Extension.getD "").toList = "pdf".toList
                then (10 : ℚ) else 0)
             = (if (prefer_pdf &&
                    (lowerCl (result.Extension.getD "").toList == "pdf".toList)) = true
                then (10 : ℚ) else 0) :=
      if_congr (by simp [Bool.and_eq_true]) rfl rfl
    rw [hif]
    simp only [score]
    rcases hy : yearParsed result with _ | year <;>
      simp only [hy] <;> split_ifs <;> ring
  · rfl

/-! ## Claim C4: the Ranker is a stable descending permutation -/

theorem insertDesc_perm {α : Type} (key : α → ℚ) (x : α) (l : List α) :
    (insertDesc key x l).Perm (x :: l) := by
  induction l with
  | nil => rfl
  | cons y ys ih =>
    rw [insertDesc]
    split
    · exact ((ih.cons y).trans (List.Perm.swap x y ys)).symm.symm
    · rfl

theorem sortDesc_perm {α : Type} (key : α → ℚ) (l : List α) :
    (sortDesc key l).Perm l := by
  induction l with
  | nil => rfl
  | cons x xs ih =>
    rw [sortDesc]
    exact (insertDesc_perm key x (sortDesc key xs)).trans (ih.cons x)

theorem insertDesc_pairwise {α : Type} (key : α → ℚ) (x : α) (l : List α)
    (h : l.Pairwise (fun a b => key b ≤ key a)) :
    (insertDesc key x l).Pairwise (fun a b => key b ≤ key a) := by
  induction l with
  | nil => simp [insertDesc]
  | cons y ys ih =>
    rw [insertDesc]
    rcases h with - | ⟨hy, hys⟩
    split
    · refine List.Pairwise.cons ?_ (ih hys)
      intro z hz
      have hz' : z ∈ x :: ys := (insertDesc_perm key x ys).mem_iff.1 hz
      rcases List.mem_cons.1 hz' with rfl | hzys
      · next hlt => exact le_of_lt hlt
      · next _ => exact hy z hzys
    · next hnlt =>
      refine List.Pairwise.cons ?_ (List.Pairwise.cons hy hys)
      intro z hz
      rcases List.mem_cons.1 hz with rfl | hzys
      · exact not_lt.1 hnlt
      · exact le_trans (hy z hzys) (not_lt.1 hnlt)

theorem sortDesc_pairwise {α : Type} (key : α → ℚ) (l : List α) :
    (sortDesc key l).Pairwise (fun a b => key b ≤ key a) := by
  induction l with
  | nil => simp [sortDesc]
  | cons x xs ih => exact insertDesc_pairwise key x _ ih

theorem insertDesc_filter {α : Type} (key : α → ℚ) (q : ℚ) (x : α) (l : List α) :
    (insertDesc key x l).filter (fun a => decide (key a = q)) =
      if key x = q then x :: l.filter (fun a => decide (key a = q))
      else l.filter (fun a => decide (key a = q)) := by
  induction l with
  | nil =>
    rcases hxq : decide (key x = q) with _ | _
    · simp [insertDesc, List.filter, hxq, of_decide_eq_false hxq]
    · simp [insertDesc, List.filter, hxq, of_decide_eq_true hxq]
  | cons y ys ih =>
    rw [insertDesc]
    split
    · next hlt =>
      rcases hxq : decide (key x = q) with _ | _
      · have hxq' : ¬(key x = q) := of_decide_eq_false hxq
        rw [if_neg hxq']
        rw [List.filter_cons, List.filter_cons, ih, if_neg hxq']
      · have hxq' : key x = q := of_decide_eq_true hxq
        rw [if_pos hxq']
        have hyq : ¬(key y = q) := by
          intro hcon
          rw [hxq', ← hcon] at hlt
          exact lt_irrefl _ hlt
        rw [List.filter_cons, List.filter_cons, ih, if_pos hxq']
        simp [hyq]
    · rw [List.filter_cons]
      split
      · next hd =>
        have : key x = q := by simpa using hd
        rw [if_pos this]
      · next hd =>
        have : ¬(key x = q) := by simpa using hd
        rw [if_neg this]

theorem sortDesc_filter {α : Type} (key : α → ℚ) (q : ℚ) (l : List α) :
    (sortDesc key l).filter (fun a => decide (key a = q)) =
      l.filter (fun a => decide (key a = q)) := by
  induction l with
  | nil => rfl
  | cons x xs ih =>
    rw [sortDesc, insertDesc_filter, List.filter_cons]
    split
    · next h =>
      rw [ih, decide_eq_true h]
      simp
    · next h =>
      rw [ih, decide_eq_false h]
      simp

/-- C4: for every input sequence (the empty one included) the Ranker's
output is a permutation of the input — same multiset, nothing filtered;
it is ordered so that a record with a strictly greater stored score
appears before one with a smaller score (pairwise descending scores);
and records with equal scores keep their original relative order (for
every score value, filtering the output by that score gives exactly the
input filtered by that score, in input order). -/
theorem format_results_spec (results : List Candidate) (pp pn : Bool) :
    (format_results results pp pn).Perm results ∧
    (format_results results pp pn).Pairwise
      (fun a b => score b pp pn ≤ score a pp pn) ∧
    ∀ q : ℚ,
      (format_results results pp pn).filter (fun r => decide (score r pp pn = q)) =
        results.filter (fun r => decide (score r pp pn = q)) := by
  rcases hres : results with _ | ⟨r0, rs⟩
  · simp [format_results]
  rw [← hres]
  have hne : ¬(results = []) := by rw [hres]; simp
  have hfr : format_results results pp pn =
      (sortDesc Prod.fst (results.map (fun r => (score r pp pn, r)))).map Prod.snd := by
    rw [format_results, if_neg hne]
  set pl := results.map (fun r => (score r pp pn, r)) with hpl
  have hmem : ∀ p ∈ sortDesc Prod.fst pl, p.1 = score p.2 pp pn := by
    intro p hp
    have : p ∈ pl := (sortDesc_perm Prod.fst pl).mem_iff.1 hp
    rw [hpl] at this
    rcases List.mem_map.1 this with ⟨r, -, rfl⟩
    rfl
  have hplsnd : pl.map Prod.snd = results := by
    rw [hpl, List.map_map]
    have hcomp : (Prod.snd ∘ fun r : Candidate => (score r pp pn, r)) = id := by
      funext r; rfl
    rw [hcomp, List.map_id]
  refine ⟨?_, ?_, ?_⟩
  · rw [hfr]
    have h1 := (sortDesc_perm Prod.fst pl).map Prod.snd
    rw [hplsnd] at h1
    exact h1
  · rw [hfr]
    rw [List.pairwise_map]
    refine List.Pairwise.imp_of_mem ?_ (sortDesc_pairwise Prod.fst pl)
    intro a b ha hb hle
    rw [← hmem a ha, ← hmem b hb]
    exact hle
  · intro q
    rw [hfr]
    rw [List.filter_map]
    have hcong : (sortDesc Prod.fst pl).filter
        ((fun r => decide (score r pp pn = q)) ∘ Prod.snd) =
        (sortDesc Prod.fst pl).filter (fun p => decide (p.1 = q)) := by
      apply List.filter_congr
      intro p hp
      simp [Function.comp, hmem p hp]
    rw [hcong, sortDesc_filter]
    have hcong2 : pl.filter (fun p => decide (p.1 = q)) =
        pl.filter ((fun r => decide (score r pp pn = q)) ∘ Prod.snd) := by
      apply List.filter_congr
      intro p hp
      rw [hpl] at hp
      rcases List.mem_map.1 hp with ⟨r, -, rfl⟩
      simp [Function.comp]
    rw [hcong2, ← List.filter_map, hplsnd]

/-! ## Claim C6: all-or-nothing selection validation -/

/-- C6: selection input validation is all-or-nothing.  Against a
5-element ranked list, the line `"1,3"` queues exactly the 0-based
offsets 0 and 2; the line `"0,6"` queues nothing — both tokens are
collected into the single combined invalid list and the loop re-prompts.
In general a line with any invalid token queues nothing and the loop
moves on to the next typed line; the skip token and the empty line end
the loop selecting nothing; a fully valid line (that is not skip/empty)
ends the loop with exactly its parsed offsets. -/
theorem selection_validation (n : Nat) (s : String) (rest : List UserLine) :
    (parseSelection "1,3" 5 = ([0, 2], []) ∧
     selectLoop [UserLine.text "1,3"] 5 = SelOut.chosen [0, 2] ∧
     parseSelection "0,6" 5 = ([], ["0", "6"]) ∧
     ∀ r : List UserLine, selectLoop (UserLine.text "0,6" :: r) 5 = selectLoop r 5) ∧
    (procChoice s ≠ "skip".toList → procChoice s ≠ [] →
      (parseSelection s n).2 ≠ [] →
      selectLoop (UserLine.text s :: rest) n = selectLoop rest n) ∧
    (procChoice s = "skip".toList ∨ procChoice s = [] →
      selectLoop (UserLine.text s :: rest) n = SelOut.chosen []) ∧
    (procChoice s ≠ "skip".toList → procChoice s ≠ [] →
      (parseSelection s n).2 = [] →
      selectLoop (UserLine.text s :: rest) n = SelOut.chosen (parseSelection s n).1) := by
  refine ⟨⟨by decide, by decide, by decide, ?_⟩, ?_, ?_, ?_⟩
  · intro r
    rw [selectLoop]
    rw [if_neg (by decide)]
    have h : parseSelection "0,6" 5 = ([], ["0", "6"]) := by decide
    rw [h]
    simp
  · intro hskip hempty hinv
    rw [selectLoop, if_neg (by tauto)]
    simp only []
    rw [if_pos hinv]
  · intro h
    rw [selectLoop, if_pos h]
  · intro hskip hempty hinv
    rw [selectLoop, if_neg (by tauto)]
    simp only []
    rw [if_neg (by simpa using hinv)]

/-- Witness for the hypothesis-carrying clauses of `selection_validation`, at
the concrete inputs `"2,foo"` (invalid token `foo` re-prompts), `"skip"`
and `"2"` against a 3-element list. -/
theorem selection_validation_witness :
    selectLoop [UserLine.text "2,foo", UserLine.text "skip"] 3 = SelOut.chosen [] ∧
    selectLoop [UserLine.text "2"] 3 = SelOut.chosen [1] := by
  constructor
  · have h1 := (selection_validation 3 "2,foo" [UserLine.text "skip"]).2.1
      (by decide) (by decide) (by decide)
    have h2 := (selection_validation 3 "skip" []).2.2.1 (by decide)
    rw [h1, h2]
  · have h3 := (selection_validation 3 "2" []).2.2.2 (by decide) (by decide) (by decide)
    rw [h3]
    decide

/-! ## Claim C7: resolver failure and mirror iteration -/

theorem truthyUrls_cons_none (name : String) (rest : List (String × Option String)) :
    truthyUrls ((name, none) :: rest) = truthyUrls rest := by
  simp [truthyUrls, List.filterMap_cons]

theorem truthyUrls_cons_empty (name : String) (rest : List (String × Option String)) :
    truthyUrls ((name, some "") :: rest) = truthyUrls rest := by
  simp [truthyUrls, List.filterMap_cons]

theorem truthyUrls_cons_some (name url : String) (rest : List (String × Option String))
    (h : url ≠ "") :
    truthyUrls ((name, some url) :: rest) = url :: truthyUrls rest := by
  simp [truthyUrls, List.filterMap_cons, h]

theorem tryMirrors_fst (dl : String → Bool) (ls : List (String × Option String)) :
    (tryMirrors dl ls).1 = (truthyUrls ls).any dl := by
  induction ls with
  | nil => rfl
  | cons p rest ih =>
    rcases p with ⟨name, u⟩
    rcases u with _ | url
    · rw [tryMirrors, truthyUrls_cons_none]
      exact ih
    · rw [tryMirrors]
      by_cases hurl : url = ""
      · subst hurl
        rw [if_pos rfl, truthyUrls_cons_empty]
        exact ih
      · rw [if_neg hurl, truthyUrls_cons_some name url rest hurl]
        by_cases hdl : dl url = true
        · simp [hdl]
        · have hdl' : dl url = false := by simpa using hdl
          simp only [hdl', Bool.false_eq_true, if_false, List.any_cons, Bool.false_or]
          exact ih

theorem tryMirrors_attempts_ordered (dl : String → Bool) (ls : List (String × Option String)) :
    (tryMirrors dl ls).2 <+: truthyUrls ls := by
  induction ls with
  | nil => simp [tryMirrors, truthyUrls]
  | cons p rest ih =>
    rcases p with ⟨name, u⟩
    rcases u with _ | url
    · rw [tryMirrors, truthyUrls_cons_none]
      exact ih
    · rw [tryMirrors]
      by_cases hurl : url = ""
      · subst hurl
        rw [if_pos rfl, truthyUrls_cons_empty]
        exact ih
      · rw [if_neg hurl, truthyUrls_cons_some name url rest hurl]
        by_cases hdl : dl url = true
        · simp only [hdl, if_true]
          exact ⟨truthyUrls rest, rfl⟩
        · have hdl' : dl url = false := by simpa using hdl
          simp only [hdl', Bool.false_eq_true, if_false]
          exact (List.prefix_cons_inj url).2 ih

theorem tryMirrors_exhaust (dl : String → Bool) (ls : List (String × Option String))
    (h : ∀ u ∈ truthyUrls ls, dl u = false) :
    tryMirrors dl ls = (false, truthyUrls ls) := by
  induction ls with
  | nil => simp [tryMirrors, truthyUrls]
  | cons p rest ih =>
    rcases p with ⟨name, u⟩
    rcases u with _ | url
    · rw [tryMirrors, truthyUrls_cons_none]
      rw [truthyUrls_cons_none] at h
      exact ih h
    · rw [tryMirrors]
      by_cases hurl : url = ""
      · subst hurl
        rw [if_pos rfl, truthyUrls_cons_empty]
        rw [truthyUrls_cons_empty] at h
        exact ih h
      · rw [if_neg hurl, truthyUrls_cons_some name url rest hurl]
        rw [truthyUrls_cons_some name url rest hurl] at h
        rw [h url (by simp)]
        simp only [Bool.false_eq_true, if_false]
        rw [ih (fun v hv => h v (List.mem_cons_of_mem _ hv))]

/-- Unfolding of one step of the download phase. -/
theorem phase2_cons (env : Env) (dir : String) (d : DownloadItem)
    (rest : List DownloadItem) :
    phase2 env dir (d :: rest) =
      if (download_single_book env.resolve env.dl d dir).1
      then ((download_single_book env.resolve env.dl d dir).2.1 :: (phase2 env dir rest).1,
            (phase2 env dir rest).2)
      else ((phase2 env dir rest).1,
            (download_single_book env.resolve env.dl d dir).2.1 :: (phase2 env dir rest).2) :=
  rfl

/-- Every branch of `download_single_book` reports the request's
`original_line` as its identity. -/
theorem download_single_book_identity
    (resolve : Candidate → Option (List (String × Option String)))
    (dl : String → String → Bool) (d : DownloadItem) (dir : String) :
    (download_single_book resolve dl d dir).2.1 = d.book.original_line := by
  rw [download_single_book]
  by_cases h : get_download_links resolve d.result = []
  · rw [if_pos h]
  · rw [if_neg h]
    dsimp only
    split <;> rfl

theorem phase2_failed_mem (env : Env) (dir : String) :
    ∀ (q : List DownloadItem) (d : DownloadItem), d ∈ q →
      (download_single_book env.resolve env.dl d dir).1 = false →
      d.book.original_line ∈ (phase2 env dir q).2 := by
  intro q
  induction q with
  | nil => intro d hd; simp at hd
  | cons d0 rest ih =>
    intro d hd hfail
    rw [phase2_cons]
    rcases List.mem_cons.1 hd with rfl | hdrest
    · rw [hfail]
      simp only [Bool.false_eq_true, if_false]
      rw [download_single_book_identity]
      exact List.mem_cons_self _ _
    · split
      · exact ih d hdrest hfail
      · exact List.mem_cons_of_mem _ (ih d hdrest hfail)

/-- C7: a `DownloadTask` whose resolver raises (`none`) or returns an
empty mapping fails immediately with the no-links message and attempts
no mirror; otherwise the mirrors are attempted in map order with falsy
(absent/empty) URLs skipped, the attempted URLs always form a prefix of
the truthy URLs, the task succeeds exactly when some truthy URL's
download succeeds, and when every truthy URL fails the task fails having
attempted all of them; a task whose `download_single_book` fails has its
`original_line` in the failed (not_downloaded) list of the download
phase. -/
theorem download_task_spec (resolve : Candidate → Option (List (String × Option String)))
    (dl : String → String → Bool) (item : DownloadItem) (dir : String)
    (env : Env) (q : List DownloadItem) (d : DownloadItem) :
    ((resolve item.result = none ∨ resolve item.result = some []) →
      download_single_book resolve dl item dir
        = (false, item.book.original_line,
           "No download links found for " ++ item.result.Title.getD "Unknown Title") ∧
      attemptedUrls resolve dl item dir = []) ∧
    (∀ links, resolve item.result = some links → links ≠ [] →
      ((download_single_book resolve dl item dir).1
          = (truthyUrls links).any (fun url => dl url (destPath dir item))) ∧
      (attemptedUrls resolve dl item dir <+: truthyUrls links) ∧
      ((∀ u ∈ truthyUrls links, dl u (destPath dir item) = false) →
        (download_single_book resolve dl item dir).1 = false ∧
        attemptedUrls resolve dl item dir = truthyUrls links)) ∧
    (d ∈ q → (download_single_book env.resolve env.dl d dir).1 = false →
      d.book.original_line ∈ (phase2 env dir q).2) := by
  refine ⟨?_, ?_, phase2_failed_mem env dir q d⟩
  · intro hres
    have hlinks : get_download_links resolve item.result = [] := by
      rcases hres with h | h <;> rw [get_download_links, h] <;> rfl
    constructor
    · rw [download_single_book, hlinks, if_pos rfl]
    · rw [attemptedUrls, hlinks, if_pos rfl]
  · intro links hres hne
    have hlinks : get_download_links resolve item.result = links := by
      rw [get_download_links, hres]; rfl
    refine ⟨?_, ?_, ?_⟩
    · rw [download_single_book, hlinks, if_neg hne]
      dsimp only
      rw [apply_ite (Prod.fst : Bool × String × String → Bool)]
      dsimp only
      rw [tryMirrors_fst]
      by_cases hany :
          ((truthyUrls links).any fun url => dl url (destPath dir item)) = true
      · rw [if_pos hany, hany]
      · have hany' : ((truthyUrls links).any fun url => dl url (destPath dir item))
            = false := by simpa using hany
        rw [if_neg hany, hany']
    · rw [attemptedUrls, hlinks, if_neg hne]
      exact tryMirrors_attempts_ordered _ links
    · intro hall
      have hex := tryMirrors_exhaust (fun url => dl url (destPath dir item)) links hall
      constructor
      · rw [download_single_book, hlinks, if_neg hne]
        dsimp only
        rw [hex]
        simp
      · rw [attemptedUrls, hlinks, if_neg hne, hex]

/-- Witness for `download_task_spec` at a concrete task: a raising
resolver fails with no attempts, and a two-mirror mapping whose first
URL is empty and whose second fails exhausts exactly the one truthy
URL. -/
theorem download_task_spec_witness :
    download_single_book (fun _ => none) (fun _ _ => true)
        ⟨⟨"A", "T", "A - T"⟩, {}⟩ "downloaded_books"
      = (false, "A - T", "No download links found for Unknown Title") ∧
    attemptedUrls (fun _ => some [("m1", some ""), ("m2", some "u2")]) (fun _ _ => false)
        ⟨⟨"A", "T", "A - T"⟩, {}⟩ "downloaded_books"
      = ["u2"] := by
  constructor
  · exact ((download_task_spec (fun _ => none) (fun _ _ => true)
      ⟨⟨"A", "T", "A - T"⟩, {}⟩ "downloaded_books"
      ⟨(fun _ => []), (fun _ => []), (fun _ => none), (fun _ _ => false)⟩ []
      ⟨⟨"A", "T", "A - T"⟩, {}⟩).1
      (Or.inl rfl)).1
  · have h := ((download_task_spec
      (fun _ => some [("m1", some ""), ("m2", some "u2")]) (fun _ _ => false)
      ⟨⟨"A", "T", "A - T"⟩, {}⟩ "downloaded_books"
      ⟨(fun _ => []), (fun _ => []), (fun _ => none), (fun _ _ => false)⟩ []
      ⟨⟨"A", "T", "A - T"⟩, {}⟩).2.1
      [("m1", some ""), ("m2", some "u2")] rfl (by decide)).2.2
      (by decide)
    rw [h.2]
    decide

/-! ## Claim C10: `download_file` writes incrementally, no cleanup -/

theorem writeChunks_append (cs ds : List (List Nat)) :
    writeChunks (cs ++ ds) = writeChunks cs ++ writeChunks ds := by
  induction cs with
  | nil => simp [writeChunks]
  | cons c cs ih =>
    rw [List.cons_append, writeChunks, writeChunks]
    split
    · rw [ih, List.append_assoc]
    · exact ih

/-- C10 (implicit): `download_file` streams chunks straight to the final
destination path it was given — there is no temporary file.  When the
HTTP request itself fails, no file is created; when the stream fails
partway, the function returns a failure result yet the file at the
destination still holds exactly the non-empty chunks received so far —
a prefix of what the full stream would have written — because no
cleanup/delete is performed on error. -/
theorem download_file_no_cleanup (filename : String) (chunks more : List (List Nat)) :
    ((download_file (.stream chunks true) filename).1.1 = false ∧
      (download_file (.stream chunks true) filename).2 = some (writeChunks chunks)) ∧
    writeChunks chunks <+: writeChunks (chunks ++ more) ∧
    (download_file .failStart filename).2 = none ∧
    (download_file (.stream chunks false) filename).1 = (true, filename) ∧
    (download_file (.stream chunks false) filename).2 = some (writeChunks chunks) := by
  refine ⟨⟨rfl, rfl⟩, ?_, rfl, rfl, rfl⟩
  rw [writeChunks_append]
  exact ⟨writeChunks more, rfl⟩

/-! ## Claim C5: fallback query order and the not_found bucket -/

theorem phase1_cons_empty (env : Env) (book : BookRequest) (rest : List BookRequest)
    (i : Nat) (h : searchWithFallback env.search_book book = []) :
    phase1 env (book :: rest) i =
      (phase1 env rest (i + 1)).map
        (fun o => ⟨o.downloads, book.original_line :: o.not_found, o.offered⟩) := by
  rw [phase1, if_pos h]

theorem phase1_cons_cancelled (env : Env) (book : BookRequest) (rest : List BookRequest)
    (i : Nat) (h : ¬searchWithFallback env.search_book book = [])
    (hsel : selectLoop (env.inputs i)
        (format_results (searchWithFallback env.search_book book)).length
      = SelOut.cancelled) :
    phase1 env (book :: rest) i = none := by
  rw [phase1, if_neg h, hsel]

theorem phase1_cons_chosen (env : Env) (book : BookRequest) (rest : List BookRequest)
    (i : Nat) (idxs : List Nat) (h : ¬searchWithFallback env.search_book book = [])
    (hsel : selectLoop (env.inputs i)
        (format_results (searchWithFallback env.search_book book)).length
      = SelOut.chosen idxs) :
    phase1 env (book :: rest) i =
      (phase1 env rest (i + 1)).map
        (fun o =>
          ⟨idxs.map (fun idx =>
              ⟨book,
               (format_results (searchWithFallback env.search_book book)).getD
                 idx default⟩)
             ++ o.downloads,
           o.not_found, book :: o.offered⟩) := by
  rw [phase1, if_neg h, hsel]

theorem phase1_not_found (env : Env) :
    ∀ (books : List BookRequest) (i : Nat) (o : Phase1Out),
      phase1 env books i = some o →
      o.not_found = (books.filter
          (fun b => decide (searchWithFallback env.search_book b = []))).map
        (fun b => b.original_line) := by
  intro books
  induction books with
  | nil =>
    intro i o h
    simp only [phase1, Option.some.injEq] at h
    rw [← h]
    rfl
  | cons book rest ih =>
    intro i o h
    by_cases hemp : searchWithFallback env.search_book book = []
    · rw [phase1_cons_empty env book rest i hemp] at h
      rcases ho' : phase1 env rest (i + 1) with _ | o'
      · rw [ho'] at h; simp at h
      · rw [ho'] at h
        simp only [Option.map_some', Option.some.injEq] at h
        rw [← h]
        simpa [List.filter_cons, hemp] using ih (i + 1) o' ho'
    · rcases hsel : selectLoop (env.inputs i)
          (format_results (searchWithFallback env.search_book book)).length with idxs | _
      · rw [phase1_cons_chosen env book rest i idxs hemp hsel] at h
        rcases ho' : phase1 env rest (i + 1) with _ | o'
        · rw [ho'] at h; simp at h
        · rw [ho'] at h
          simp only [Option.map_some', Option.some.injEq] at h
          rw [← h]
          simpa [List.filter_cons, hemp] using ih (i + 1) o' ho'
      · rw [phase1_cons_cancelled env book rest i hemp hsel] at h
        simp at h

theorem phase1_offered (env : Env) :
    ∀ (books : List BookRequest) (i : Nat) (o : Phase1Out),
      phase1 env books i = some o →
      o.offered = books.filter
        (fun b => !decide (searchWithFallback env.search_book b = [])) := by
  intro books
  induction books with
  | nil =>
    intro i o h
    simp only [phase1, Option.some.injEq] at h
    rw [← h]
    rfl
  | cons book rest ih =>
    intro i o h
    by_cases hemp : searchWithFallback env.search_book book = []
    · rw [phase1_cons_empty env book rest i hemp] at h
      rcases ho' : phase1 env rest (i + 1) with _ | o'
      · rw [ho'] at h; simp at h
      · rw [ho'] at h
        simp only [Option.map_some', Option.some.injEq] at h
        rw [← h]
        simpa [List.filter_cons, hemp] using ih (i + 1) o' ho'
    · rcases hsel : selectLoop (env.inputs i)
          (format_results (searchWithFallback env.search_book book)).length with idxs | _
      · rw [phase1_cons_chosen env book rest i idxs hemp hsel] at h
        rcases ho' : phase1 env rest (i + 1) with _ | o'
        · rw [ho'] at h; simp at h
        · rw [ho'] at h
          simp only [Option.map_some', Option.some.injEq] at h
          rw [← h]
          simpa [List.filter_cons, hemp] using ih (i + 1) o' ho'
      · rw [phase1_cons_cancelled env book rest i hemp hsel] at h
        simp at h

/-- C5: the orchestrator issues the fallback queries in the order
author+title joined, then title alone, then author alone, stopping at
the first query whose `search_book` result is non-empty; when every
fallback query returns the empty sequence the request's `original_line`
is appended to `not_found` and the request is never offered to the
Selector. -/
theorem search_fallback_spec (sb : String → List Candidate) (book : BookRequest)
    (env : Env) (books : List BookRequest) (o : Phase1Out) :
    (search_queries book = [book.author ++ " " ++ book.title, book.title, book.author]) ∧
    (sb (book.author ++ " " ++ book.title) ≠ [] →
      searchLoop sb (search_queries book)
        = ([book.author ++ " " ++ book.title], sb (book.author ++ " " ++ book.title))) ∧
    (sb (book.author ++ " " ++ book.title) = [] → sb book.title ≠ [] →
      searchLoop sb (search_queries book)
        = ([book.author ++ " " ++ book.title, book.title], sb book.title)) ∧
    (sb (book.author ++ " " ++ book.title) = [] → sb book.title = [] →
      sb book.author ≠ [] →
      searchLoop sb (search_queries book)
        = ([book.author ++ " " ++ book.title, book.title, book.author], sb book.author)) ∧
    (sb (book.author ++ " " ++ book.title) = [] → sb book.title = [] →
      sb book.author = [] →
      searchLoop sb (search_queries book)
        = ([book.author ++ " " ++ book.title, book.title, book.author], []) ∧
      searchWithFallback sb book = []) ∧
    (phase1 env books 0 = some o → book ∈ books →
      searchWithFallback env.search_book book = [] →
      book.original_line ∈ o.not_found ∧ book ∉ o.offered) := by
  refine ⟨rfl, ?_, ?_, ?_, ?_, ?_⟩
  · intro h1
    rw [search_queries, searchLoop, if_neg h1]
  · intro h1 h2
    rw [search_queries, searchLoop, if_pos h1, searchLoop, if_neg h2]
  · intro h1 h2 h3
    rw [search_queries, searchLoop, if_pos h1, searchLoop, if_pos h2,
        searchLoop, if_neg h3]
  · intro h1 h2 h3
    have hloop : searchLoop sb (search_queries book)
        = ([book.author ++ " " ++ book.title, book.title, book.author], []) := by
      rw [search_queries, searchLoop, if_pos h1, searchLoop, if_pos h2,
          searchLoop, if_pos h3, searchLoop]
    exact ⟨hloop, by rw [searchWithFallback, hloop]⟩
  · intro hrun hmem hemp
    constructor
    · rw [phase1_not_found env books 0 o hrun]
      exact List.mem_map.2 ⟨book, List.mem_filter.2 ⟨hmem, decide_eq_true hemp⟩, rfl⟩
    · rw [phase1_offered env books 0 o hrun]
      intro hcon
      have := (List.mem_filter.1 hcon).2
      rw [decide_eq_true hemp] at this
      exact Bool.noConfusion this

/-- Witness for the hypothesis-carrying clauses of `search_fallback_spec` at
a concrete oracle: the first two queries are empty, the author-only
query hits, and a fully-empty oracle routes the request into
`not_found`. -/
theorem search_fallback_spec_witness :
    searchLoop (fun q => if q = "A" then [({} : Candidate)] else [])
        (search_queries ⟨"A", "T", "A - T"⟩)
      = (["A T", "T", "A"], [({} : Candidate)]) ∧
    "A - T" ∈ (Phase1Out.mk [] ["A - T"] []).not_found := by
  constructor
  · have h := (search_fallback_spec (fun q => if q = "A" then [({} : Candidate)] else [])
      ⟨"A", "T", "A - T"⟩
      ⟨(fun _ => []), (fun _ => []), (fun _ => none), (fun _ _ => false)⟩
      [] ⟨[], [], []⟩).2.2.2.1 (by decide) (by decide) (by decide)
    rw [h]
    decide
  · have h := (search_fallback_spec (fun _ => [])
      ⟨"A", "T", "A - T"⟩
      ⟨(fun _ => []), (fun _ => []), (fun _ => none), (fun _ _ => false)⟩
      [⟨"A", "T", "A - T"⟩] ⟨[], ["A - T"], []⟩).2.2.2.2.2
      (by decide) (by decide) (by decide)
    exact h.1

/-! ## Claim C1: terminal buckets of a run -/

theorem phase1_downloads_book_mem (env : Env) :
    ∀ (books : List BookRequest) (i : Nat) (o : Phase1Out),
      phase1 env books i = some o → ∀ d ∈ o.downloads, d.book ∈ books := by
  intro books
  induction books with
  | nil =>
    intro i o h d hd
    simp only [phase1, Option.some.injEq] at h
    rw [← h] at hd
    simp at hd
  | cons book rest ih =>
    intro i o h d hd
    by_cases hemp : searchWithFallback env.search_book book = []
    · rw [phase1_cons_empty env book rest i hemp] at h
      rcases ho' : phase1 env rest (i + 1) with _ | o'
      · rw [ho'] at h; simp at h
      · rw [ho'] at h
        simp only [Option.map_some', Option.some.injEq] at h
        rw [← h] at hd
        exact List.mem_cons_of_mem _ (ih (i + 1) o' ho' d hd)
    · rcases hsel : selectLoop (env.inputs i)
          (format_results (searchWithFallback env.search_book book)).length with idxs | _
      · rw [phase1_cons_chosen env book rest i idxs hemp hsel] at h
        rcases ho' : phase1 env rest (i + 1) with _ | o'
        · rw [ho'] at h; simp at h
        · rw [ho'] at h
          simp only [Option.map_some', Option.some.injEq] at h
          rw [← h] at hd
          rcases List.mem_append.1 hd with hnew | hold
          · rcases List.mem_map.1 hnew with ⟨idx, -, rfl⟩
            exact List.mem_cons_self _ _
          · exact List.mem_cons_of_mem _ (ih (i + 1) o' ho' d hold)
      · rw [phase1_cons_cancelled env book rest i hemp hsel] at h
        simp at h

theorem count_not_found_zero (env : Env) {books : List BookRequest} {i : Nat}
    {o : Phase1Out} {l : String} (h : phase1 env books i = some o)
    (hall : ∀ b ∈ books, b.original_line ≠ l) :
    o.not_found.count l = 0 := by
  rw [phase1_not_found env books i o h, List.count_eq_zero]
  intro hmem
  rcases List.mem_map.1 hmem with ⟨b, hb, hbeq⟩
  exact hall b (List.mem_filter.1 hb).1 hbeq

theorem countP_downloads_zero (env : Env) {books : List BookRequest} {i : Nat}
    {o : Phase1Out} {l : String} (h : phase1 env books i = some o)
    (hall : ∀ b ∈ books, b.original_line ≠ l) :
    o.downloads.countP (fun d => d.book.original_line == l) = 0 := by
  rw [List.countP_eq_zero]
  intro d hd hp
  have hb : d.book ∈ books := phase1_downloads_book_mem env books i o h d hd
  exact hall d.book hb (by simpa using hp)

/-- The number of items the selection loop for one book queues, read off
from the loop's outcome. -/
theorem selLen_eq (env : Env) (book : BookRequest) (i : Nat) (idxs : List Nat)
    (hsel : selectLoop (env.inputs i)
        (format_results (searchWithFallback env.search_book book)).length
      = SelOut.chosen idxs) :
    selLen env book i = idxs.length := by
  rw [selLen, hsel]

theorem phase2_counts (env : Env) (dir : String) :
    ∀ (q : List DownloadItem) (l : String),
      (phase2 env dir q).1.count l + (phase2 env dir q).2.count l
        = q.countP (fun d => d.book.original_line == l) := by
  intro q
  induction q with
  | nil => intro l; rfl
  | cons d rest ih =>
    intro l
    rw [phase2_cons, List.countP_cons]
    by_cases hflag : (download_single_book env.resolve env.dl d dir).1 = true
    · rw [if_pos hflag]
      simp only [List.count_cons, download_single_book_identity]
      rw [← ih l]
      rcases hb : (d.book.original_line == l) with _ | _ <;> (simp [hb]; try omega)
    · rw [if_neg hflag]
      simp only [List.count_cons, download_single_book_identity]
      rw [← ih l]
      rcases hb : (d.book.original_line == l) with _ | _ <;> (simp [hb]; try omega)

theorem nodup_lines_getD (books : List BookRequest)
    (hnodup : (books.map (fun b => b.original_line)).Nodup)
    (j k : Nat) (hj : j < books.length) (hk : k < books.length) (hne : k ≠ j) :
    (books.getD k default).original_line ≠ (books.getD j default).original_line := by
  intro heq
  apply hne
  have hjm : j < (books.map (fun b => b.original_line)).length := by simpa using hj
  have hkm : k < (books.map (fun b => b.original_line)).length := by simpa using hk
  have hinj := @List.Nodup.getElem_inj_iff _ _ hnodup k hkm j hjm
  apply hinj.1
  rw [List.getElem_map, List.getElem_map]
  rw [List.getD_eq_getElem books default hj, List.getD_eq_getElem books default hk] at heq
  exact heq

theorem phase1_line_counts (env : Env) :
    ∀ (books : List BookRequest) (i : Nat) (o : Phase1Out) (j : Nat),
      phase1 env books i = some o →
      j < books.length →
      (∀ k, k < books.length → k ≠ j →
        (books.getD k default).original_line ≠ (books.getD j default).original_line) →
      o.not_found.count (books.getD j default).original_line
          = (if searchWithFallback env.search_book (books.getD j default) = []
             then 1 else 0) ∧
      o.downloads.countP
          (fun d => d.book.original_line == (books.getD j default).original_line)
          = (if searchWithFallback env.search_book (books.getD j default) = []
             then 0 else selLen env (books.getD j default) (i + j)) := by
  intro books
  induction books with
  | nil =>
    intro i o j h hj
    exact absurd hj (by simp)
  | cons book rest ih =>
    intro i o j h hj hdist
    rcases j with _ | k
    · simp only [List.getD_cons_zero]
      have hrest : ∀ b' ∈ rest, b'.original_line ≠ book.original_line := by
        intro b' hb'
        obtain ⟨n, hn, rfl⟩ := List.mem_iff_getElem.1 hb'
        have h1 := hdist (n + 1) (by simpa using Nat.succ_lt_succ hn) (Nat.succ_ne_zero n)
        rw [List.getD_cons_succ, List.getD_cons_zero,
            List.getD_eq_getElem rest default hn] at h1
        exact h1
      by_cases hemp : searchWithFallback env.search_book book = []
      · rw [phase1_cons_empty env book rest i hemp] at h
        rcases ho' : phase1 env rest (i + 1) with _ | o'
        · rw [ho'] at h; simp at h
        · rw [ho'] at h
          simp only [Option.map_some', Option.some.injEq] at h
          rw [← h]
          rw [if_pos hemp, if_pos hemp]
          constructor
          · show (book.original_line :: o'.not_found).count book.original_line = 1
            rw [List.count_cons, count_not_found_zero env ho' hrest]
            simp
          · show o'.downloads.countP _ = 0
            exact countP_downloads_zero env ho' hrest
      · rcases hsel : selectLoop (env.inputs i)
            (format_results (searchWithFallback env.search_book book)).length with idxs | _
        · rw [phase1_cons_chosen env book rest i idxs hemp hsel] at h
          rcases ho' : phase1 env rest (i + 1) with _ | o'
          · rw [ho'] at h; simp at h
          · rw [ho'] at h
            simp only [Option.map_some', Option.some.injEq] at h
            rw [← h]
            rw [if_neg hemp, if_neg hemp]
            constructor
            · show o'.not_found.count _ = 0
              exact count_not_found_zero env ho' hrest
            · show (_ ++ o'.downloads).countP _ = _
              rw [List.countP_append, List.countP_map]
              have h1 : (idxs.countP ((fun d : DownloadItem =>
                  d.book.original_line == book.original_line) ∘ (fun idx =>
                    ⟨book, (format_results
                      (searchWithFallback env.search_book book)).getD idx default⟩)))
                  = idxs.length :=
                List.countP_eq_length.2 (fun x _ => by simp [Function.comp])
              rw [h1, countP_downloads_zero env ho' hrest,
                  Nat.add_zero, Nat.add_zero, selLen_eq env book i idxs hsel]
        · rw [phase1_cons_cancelled env book rest i hemp hsel] at h
          simp at h
    · simp only [List.getD_cons_succ]
      have hj' : k < rest.length := Nat.lt_of_succ_lt_succ hj
      have hdist' : ∀ k', k' < rest.length → k' ≠ k →
          (rest.getD k' default).original_line
            ≠ (rest.getD k default).original_line := by
        intro k' hk' hkk
        have h1 := hdist (k' + 1) (by simpa using Nat.succ_lt_succ hk') (by omega)
        rw [List.getD_cons_succ, List.getD_cons_succ] at h1
        exact h1
      have hheadne : book.original_line ≠ (rest.getD k default).original_line := by
        have h1 := hdist 0 (by simp) (by omega)
        rw [List.getD_cons_zero, List.getD_cons_succ] at h1
        exact h1
      have harith : i + 1 + k = i + (k + 1) := by omega
      by_cases hemp : searchWithFallback env.search_book book = []
      · rw [phase1_cons_empty env book rest i hemp] at h
        rcases ho' : phase1 env rest (i + 1) with _ | o'
        · rw [ho'] at h; simp at h
        · rw [ho'] at h
          simp only [Option.map_some', Option.some.injEq] at h
          rw [← h]
          obtain ⟨ihn, ihd⟩ := ih (i + 1) o' k ho' hj' hdist'
          constructor
          · show (book.original_line :: o'.not_found).count _ = _
            rw [List.count_cons, ihn]
            have hbeq : (book.original_line == (rest.getD k default).original_line)
                = false := by simpa using hheadne
            rw [hbeq]
            simp
          · show o'.downloads.countP _ = _
            rw [ihd, harith]
      · rcases hsel : selectLoop (env.inputs i)
            (format_results (searchWithFallback env.search_book book)).length with idxs | _
        · rw [phase1_cons_chosen env book rest i idxs hemp hsel] at h
          rcases ho' : phase1 env rest (i + 1) with _ | o'
          · rw [ho'] at h; simp at h
          · rw [ho'] at h
            simp only [Option.map_some', Option.some.injEq] at h
            rw [← h]
            obtain ⟨ihn, ihd⟩ := ih (i + 1) o' k ho' hj' hdist'
            refine ⟨ihn, ?_⟩
            show (_ ++ o'.downloads).countP _ = _
            rw [List.countP_append, List.countP_map]
            have h0 : (idxs.countP ((fun d : DownloadItem =>
                d.book.original_line == (rest.getD k default).original_line) ∘ (fun idx =>
                  ⟨book, (format_results
                    (searchWithFallback env.search_book book)).getD idx default⟩)))
                = 0 :=
              List.countP_eq_zero.2 (fun x _ => by
                simp only [Function.comp]
                simpa using hheadne)
            rw [h0, Nat.zero_add, ihd, harith]
        · rw [phase1_cons_cancelled env book rest i hemp hsel] at h
          simp at h

/-- C1 (amended): in a completed (un-aborted) run whose parsed
`original_line`s are pairwise distinct and in which each selection
queues at most one candidate, every parsed `BookRequest` ends in exactly
one terminal bucket: the total number of occurrences of its
`original_line` across successful downloads, `not_found` and
`not_downloaded` is 1 when it was not found or was selected once, and 0
exactly when it was found but not selected (silently dropped).  (The
claim as stated — never more than one occurrence overall, with no
side conditions — is false: see the counterexample, where a duplicate
selection places one line twice in `not_downloaded`.) -/
theorem run_terminal_buckets (env : Env) (books : List BookRequest)
    (S NF ND : List String)
    (hrun : runMain env books = RunResult.finished S NF ND)
    (hnodup : (books.map (fun b => b.original_line)).Nodup)
    (j : Nat) (hj : j < books.length)
    (hsel1 : selLen env (books.getD j default) j ≤ 1) :
    (S.count (books.getD j default).original_line
      + NF.count (books.getD j default).original_line
      + ND.count (books.getD j default).original_line
      = if searchWithFallback env.search_book (books.getD j default) = []
        then 1 else selLen env (books.getD j default) j) ∧
    (S.count (books.getD j default).original_line
      + NF.count (books.getD j default).original_line
      + ND.count (books.getD j default).original_line = 1
     ∨ (S.count (books.getD j default).original_line
        + NF.count (books.getD j default).original_line
        + ND.count (books.getD j default).original_line = 0 ∧
        searchWithFallback env.search_book (books.getD j default) ≠ [] ∧
        selLen env (books.getD j default) j = 0)) := by
  rcases hph : phase1 env books 0 with _ | o
  · rw [runMain, hph] at hrun
    exact absurd hrun (by simp)
  rw [runMain, hph] at hrun
  simp only [RunResult.finished.injEq] at hrun
  obtain ⟨hS, hNF, hND⟩ := hrun
  obtain ⟨hNFc, hDLc⟩ := phase1_line_counts env books 0 o j hph hj
    (fun k hk hkj => nodup_lines_getD books hnodup j k hj hk hkj)
  simp only [Nat.zero_add] at hDLc
  have hp2 := phase2_counts env "downloaded_books" o.downloads
    (books.getD j default).original_line
  have hmain : S.count (books.getD j default).original_line
      + NF.count (books.getD j default).original_line
      + ND.count (books.getD j default).original_line
      = if searchWithFallback env.search_book (books.getD j default) = []
        then 1 else selLen env (books.getD j default) j := by
    rw [← hS, ← hNF, ← hND]
    by_cases hemp : searchWithFallback env.search_book (books.getD j default) = []
    · rw [if_pos hemp]
      rw [if_pos hemp] at hNFc hDLc
      rw [hDLc] at hp2
      rw [hNFc]
      omega
    · rw [if_neg hemp]
      rw [if_neg hemp] at hNFc hDLc
      rw [hDLc] at hp2
      rw [hNFc]
      omega
  refine ⟨hmain, ?_⟩
  by_cases hemp : searchWithFallback env.search_book (books.getD j default) = []
  · rw [if_pos hemp] at hmain
    exact Or.inl hmain
  · rw [if_neg hemp] at hmain
    rcases Nat.lt_or_ge (selLen env (books.getD j default) j) 1 with h0 | h1
    · exact Or.inr ⟨by omega, hemp, by omega⟩
    · exact Or.inl (by omega)

/-- One-request environment whose single selected download fails:
search finds one result, the user picks it, the mirror fails. -/
def envC1 : Env :=
  { search_book := fun q => if q = "A T" then [{ Extension := some "pdf" }] else []
    inputs := fun _ => [UserLine.text "1"]
    resolve := fun _ => some [("m1", some "u")]
    dl := fun _ _ => false }

/-- Witness for `run_terminal_buckets` at a concrete one-request run:
the line lands exactly once, in `not_downloaded`. -/
theorem run_terminal_buckets_witness :
    runMain envC1 [⟨"A", "T", "A - T"⟩] = RunResult.finished [] [] ["A - T"] ∧
    (([] : List String).count (([⟨"A", "T", "A - T"⟩] :
        List BookRequest).getD 0 default).original_line
      + ([] : List String).count (([⟨"A", "T", "A - T"⟩] :
        List BookRequest).getD 0 default).original_line
      + (["A - T"] : List String).count (([⟨"A", "T", "A - T"⟩] :
        List BookRequest).getD 0 default).original_line
      = if searchWithFallback envC1.search_book (([⟨"A", "T", "A - T"⟩] :
          List BookRequest).getD 0 default) = []
        then 1 else selLen envC1 (([⟨"A", "T", "A - T"⟩] :
          List BookRequest).getD 0 default) 0) := by
  constructor
  · decide
  · exact (run_terminal_buckets envC1 [⟨"A", "T", "A - T"⟩] [] [] ["A - T"]
      (by decide) (by decide) 0 (by decide) (by decide)).1

/-- One-request environment where the user types the duplicate selection
`"1,1"` and the single mirror fails. -/
def envC1cex : Env :=
  { search_book := fun q => if q = "A T" then [{ Extension := some "pdf" }] else []
    inputs := fun _ => [UserLine.text "1,1"]
    resolve := fun _ => some [("m1", some "u")]
    dl := fun _ _ => false }

/-- Counterexample to C1 as stated: with the permitted duplicate
selection `"1,1"`, the one parsed request's `original_line` appears
twice in `not_downloaded` — an `original_line` can appear more than once
overall. -/
theorem run_terminal_buckets_cex :
    runMain envC1cex [⟨"A", "T", "A - T"⟩]
      = RunResult.finished [] [] ["A - T", "A - T"] ∧
    (["A - T", "A - T"] : List String).count "A - T" = 2 := by
  constructor
  · decide
  · decide

/-! ## Claim C8: interrupt during selection -/

theorem phase1_none_iff (env : Env) :
    ∀ (books : List BookRequest) (i : Nat),
      phase1 env books i = none ↔
        ∃ j, j < books.length ∧
          searchWithFallback env.search_book (books.getD j default) ≠ [] ∧
          selectLoop (env.inputs (i + j))
            (format_results
              (searchWithFallback env.search_book (books.getD j default))).length
            = SelOut.cancelled := by
  intro books
  induction books with
  | nil =>
    intro i
    constructor
    · intro h
      exact absurd h (by simp [phase1])
    · rintro ⟨j, hj, -⟩
      exact absurd hj (by simp)
  | cons book rest ih =>
    intro i
    by_cases hemp : searchWithFallback env.search_book book = []
    · rw [phase1_cons_empty env book rest i hemp]
      constructor
      · intro h
        have h0 : phase1 env rest (i + 1) = none := by
          rcases ho : phase1 env rest (i + 1) with _ | o'
          · rfl
          · rw [ho] at h; simp at h
        obtain ⟨j, hj, hne, hsel⟩ := (ih (i + 1)).1 h0
        refine ⟨j + 1, by simpa using Nat.succ_lt_succ hj, ?_, ?_⟩
        · rw [List.getD_cons_succ]; exact hne
        · rw [List.getD_cons_succ]
          have harith : i + 1 + j = i + (j + 1) := by omega
          rw [← harith]
          exact hsel
      · rintro ⟨j, hj, hne, hsel⟩
        rcases j with _ | k
        · rw [List.getD_cons_zero] at hne
          exact absurd hemp hne
        · rw [List.getD_cons_succ] at hne hsel
          have harith : i + (k + 1) = i + 1 + k := by omega
          rw [harith] at hsel
          have h0 : phase1 env rest (i + 1) = none :=
            (ih (i + 1)).2 ⟨k, Nat.lt_of_succ_lt_succ hj, hne, hsel⟩
          rw [h0]
          rfl
    · rcases hsel0 : selectLoop (env.inputs i)
          (format_results (searchWithFallback env.search_book book)).length with idxs | _
      · rw [phase1_cons_chosen env book rest i idxs hemp hsel0]
        constructor
        · intro h
          have h0 : phase1 env rest (i + 1) = none := by
            rcases ho : phase1 env rest (i + 1) with _ | o'
            · rfl
            · rw [ho] at h; simp at h
          obtain ⟨j, hj, hne, hsel⟩ := (ih (i + 1)).1 h0
          refine ⟨j + 1, by simpa using Nat.succ_lt_succ hj, ?_, ?_⟩
          · rw [List.getD_cons_succ]; exact hne
          · rw [List.getD_cons_succ]
            have harith : i + 1 + j = i + (j + 1) := by omega
            rw [← harith]
            exact hsel
        · rintro ⟨j, hj, hne, hsel⟩
          rcases j with _ | k
          · rw [List.getD_cons_zero] at hsel
            have hi0 : i + 0 = i := by omega
            rw [hi0, hsel0] at hsel
            exact absurd hsel (by simp)
          · rw [List.getD_cons_succ] at hne hsel
            have harith : i + (k + 1) = i + 1 + k := by omega
            rw [harith] at hsel
            have h0 : phase1 env rest (i + 1) = none :=
              (ih (i + 1)).2 ⟨k, Nat.lt_of_succ_lt_succ hj, hne, hsel⟩
            rw [h0]
            rfl
      · rw [phase1_cons_cancelled env book rest i hemp hsel0]
        constructor
        · intro _
          refine ⟨0, by simp, ?_, ?_⟩
          · rw [List.getD_cons_zero]; exact hemp
          · rw [List.getD_cons_zero]
            have hi0 : i + 0 = i := by omega
            rw [hi0]
            exact hsel0
        · intro _
          rfl

/-- C8 (amended): a keyboard interrupt while the Selector waits for
input makes `main` return at once — the run is aborted, and neither the
download phase nor the summary/reporting step is reached.  Precisely: a
run ends aborted (rather than finished with the three outcome lists) if
and only if some request with a non-empty result list had its selection
loop cancelled by an interrupt.  (The claim as stated — that the
program proceeds to print the not_found/not_downloaded summary and
offers to persist it — is false: see the counterexample, where a run
with a reportable `not_found` entry ends with no reporting at all.) -/
theorem run_interrupt_aborts (env : Env) (books : List BookRequest) :
    runMain env books = RunResult.aborted ↔
      ∃ j, j < books.length ∧
        searchWithFallback env.search_book (books.getD j default) ≠ [] ∧
        selectLoop (env.inputs j)
          (format_results
            (searchWithFallback env.search_book (books.getD j default))).length
          = SelOut.cancelled := by
  constructor
  · intro h
    rcases hph : phase1 env books 0 with _ | o
    · have hex := (phase1_none_iff env books 0).1 hph
      simpa [Nat.zero_add] using hex
    · rw [runMain, hph] at h
      exact absurd h (by simp)
  · intro hex
    have h0 : phase1 env books 0 = none :=
      (phase1_none_iff env books 0).2 (by simpa [Nat.zero_add] using hex)
    rw [runMain, h0]

/-- Two-request environment: the first request is found nowhere (it
belongs in `not_found`), the second is found and the user interrupts at
its selection prompt. -/
def envC8 : Env :=
  { search_book := fun q => if q = "B T2" then [{ Extension := some "pdf" }] else []
    inputs := fun _ => [UserLine.interrupt]
    resolve := fun _ => some [("m1", some "u")]
    dl := fun _ _ => false }

/-- Counterexample to C8 as stated: the interrupt makes the run end
aborted — `main` returns immediately, so no summary of the pending
`not_found` entry (`"A - T1"`) is printed and no persistence is offered;
the run does not proceed to any reporting step. -/
theorem run_interrupt_cex :
    runMain envC8 [⟨"A", "T1", "A - T1"⟩, ⟨"B", "T2", "B - T2"⟩]
      = RunResult.aborted := by decide

/-! ## Claim C9: destination paths of download tasks -/

/-- C9 (amended): the destination path of a task is a function of
exactly the pair (sanitized `original_line`, extension):  two tasks that
share the extension but differ in sanitized line get distinct paths, two
that share the sanitized line but differ in extension get distinct
paths, and two that agree on both — duplicate selections, repeated input
lines, or sanitize-colliding lines — get the *same* path.  (The claim
as stated — any two distinct queued tasks resolve to distinct paths —
is false: see the counterexample.) -/
theorem destPath_collision (dir : String) (d1 d2 : DownloadItem) :
    (d1.result.Extension.getD "pdf" = d2.result.Extension.getD "pdf" →
      sanitize d1.book.original_line ≠ sanitize d2.book.original_line →
      destPath dir d1 ≠ destPath dir d2) ∧
    (sanitize d1.book.original_line = sanitize d2.book.original_line →
      d1.result.Extension.getD "pdf" ≠ d2.result.Extension.getD "pdf" →
      destPath dir d1 ≠ destPath dir d2) ∧
    (sanitize d1.book.original_line = sanitize d2.book.original_line →
      d1.result.Extension.getD "pdf" = d2.result.Extension.getD "pdf" →
      destPath dir d1 = destPath dir d2) := by
  refine ⟨?_, ?_, ?_⟩
  · intro hext hline heq
    apply hline
    apply String.ext
    have hdata := congrArg String.data heq
    simp only [destPath, destFilename, String.data_append, hext,
      List.append_assoc] at hdata
    have h1 := List.append_cancel_left hdata
    have h2 := List.append_cancel_left h1
    rw [← List.append_assoc, ← List.append_assoc] at h2
    have h3 := List.append_cancel_right h2
    exact List.append_cancel_right h3
  · intro hline hext heq
    apply hext
    apply String.ext
    have hdata := congrArg String.data heq
    simp only [destPath, destFilename, String.data_append, hline,
      List.append_assoc] at hdata
    have h1 := List.append_cancel_left hdata
    have h2 := List.append_cancel_left h1
    have h3 := List.append_cancel_left h2
    exact List.append_cancel_left h3
  · intro hline hext
    rw [destPath, destPath, destFilename, destFilename, hline, hext]

/-- Witness for `destPath_collision` at concrete tasks: distinct
sanitized lines with the default extension give distinct paths. -/
theorem destPath_collision_witness :
    destPath "downloaded_books" ⟨⟨"A", "T", "A - T"⟩, {}⟩
      ≠ destPath "downloaded_books" ⟨⟨"B", "U", "B - U"⟩, {}⟩ :=
  (destPath_collision "downloaded_books" ⟨⟨"A", "T", "A - T"⟩, {}⟩
    ⟨⟨"B", "U", "B - U"⟩, {}⟩).1 (by decide) (by decide)

/-- Two-request environment whose two original lines `"A - T?"` and
`"A - T*"` are distinct but sanitize to the same `"A - T_"`; each search
finds one pdf record and the user selects it. -/
def envC9 : Env :=
  { search_book := fun q =>
      if q = "A T?" ∨ q = "A T*" then [{ Extension := some "pdf" }] else []
    inputs := fun _ => [UserLine.text "1"]
    resolve := fun _ => some [("m1", some "u")]
    dl := fun _ _ => false }

/-- Counterexample to C9 as stated: a real selection phase queues two
distinct `DownloadTask`s (different requests) that resolve to the same
destination file path, because sanitization maps `?` and `*` both to
`_`. -/
theorem destPath_cex :
    phase1 envC9 [⟨"A", "T?", "A - T?"⟩, ⟨"A", "T*", "A - T*"⟩] 0
      = some ⟨[⟨⟨"A", "T?", "A - T?"⟩, { Extension := some "pdf" }⟩,
               ⟨⟨"A", "T*", "A - T*"⟩, { Extension := some "pdf" }⟩], [],
              [⟨"A", "T?", "A - T?"⟩, ⟨"A", "T*", "A - T*"⟩]⟩ ∧
    (⟨⟨"A", "T?", "A - T?"⟩, { Extension := some "pdf" }⟩ : DownloadItem)
      ≠ ⟨⟨"A", "T*", "A - T*"⟩, { Extension := some "pdf" }⟩ ∧
    destPath "downloaded_books" ⟨⟨"A", "T?", "A - T?"⟩, { Extension := some "pdf" }⟩
      = destPath "downloaded_books" ⟨⟨"A", "T*", "A - T*"⟩, { Extension := some "pdf" }⟩ := by
  refine ⟨by decide, by decide, by decide⟩

/-- Witness for `run_interrupt_aborts` at a concrete one-request run:
the request is found and the user interrupts, so the run is aborted. -/
theorem run_interrupt_aborts_witness :
    runMain envC8 [⟨"B", "T2", "B - T2"⟩] = RunResult.aborted :=
  (run_interrupt_aborts envC8 [⟨"B", "T2", "B - T2"⟩]).2
    ⟨0, by decide, by decide, by decide⟩

end BooksDl
